import Mathlib

/-!
Verification of the Video2Gif conversion orchestration subsystem.

The definitions below are a shallow embedding of the TypeScript sources:
`src/convert.ts` (conversion pipeline, time parsing, effective duration),
the process-runner module (telemetry parsing `parseOutTimeMs`), and the web
server module (`parsePositiveInt`, `parseLoop`, the result endpoint).
JavaScript machine numbers are modelled with exact `Nat`/`Int`/`Rat`
arithmetic; strings are handled at the `List Char` level so that every
definition evaluates by kernel reduction.
-/

set_option autoImplicit false

/-! ## Character and digit-string helpers (model of JS regex `\d`, `Number`) -/

/-- ASCII digit predicate, the model of the regex class `\d`. -/
def isDigitChar (c : Char) : Bool := 48 ≤ c.toNat ∧ c.toNat ≤ 57

/-- Numeric value of a list of ASCII digit characters, most significant first.
Models the exact value of a JS decimal digit string. -/
def charsVal (cs : List Char) : ℕ :=
  cs.foldl (fun acc c => acc * 10 + (c.toNat - 48)) 0

/-- Model of the regex `^\d+$`: non-empty, all ASCII digits. -/
def isDigits (cs : List Char) : Bool := !cs.isEmpty && cs.all isDigitChar

/-- Whitespace recognised by JS `String.prototype.trim` (ASCII fragment). -/
def jsWhitespace (c : Char) : Bool :=
  c = ' ' || c = '\t' || c = '\n' || c = '\r' || c = '\x0b' || c = '\x0c'

/-- Model of JS `String.prototype.trim` on the character list of a string. -/
def jsTrim (cs : List Char) : List Char :=
  ((cs.dropWhile jsWhitespace).reverse.dropWhile jsWhitespace).reverse

/-! ## Time Range Resolver (`src/convert.ts`, `parseTimeToMs`,
`computeEffectiveDurationMs`) -/

/-- Milliseconds contributed by the fraction digits `fr` of a decimal seconds
value: exactly `floor(0.fr * 1000)` computed in `Nat` arithmetic. -/
def fracMsOf (fr : List Char) : ℕ := charsVal fr * 1000 / 10 ^ fr.length

/-- The `"SS"` / `"SS.mmm"` branch of `parseTimeToMs` (regex
`^\d+(\.\d+)?$` followed by `Math.floor(seconds * 1000)`), with the decimal
value computed exactly. -/
def bareNumberMs (cs : List Char) : Option ℕ :=
  let intPart := cs.takeWhile isDigitChar
  let rest := cs.dropWhile isDigitChar
  if intPart.isEmpty then none
  else
    match rest with
    | [] => some (charsVal intPart * 1000)
    | '.' :: fr => if isDigits fr then some (charsVal intPart * 1000 + fracMsOf fr) else none
    | _ => none

/-- Model of the regex fragment `[0-5]?\d` (minutes and seconds fields):
one arbitrary digit, or two digits whose first is in `0..5`. -/
def minSecVal (cs : List Char) : Option ℕ :=
  match cs with
  | [c] => if isDigitChar c then some (c.toNat - 48) else none
  | [c1, c2] =>
      if isDigitChar c1 ∧ c1.toNat ≤ 53 ∧ isDigitChar c2 then
        some ((c1.toNat - 48) * 10 + (c2.toNat - 48))
      else none
  | _ => none

/-- Seconds stage of the `"HH:MM:SS[.mmm]"` regex: the `([0-5]?\d)(\.\d+)?$`
suffix applied to the text after the second colon, given the milliseconds
value `base` of the hours/minutes prefix in seconds (i.e. `(HH*60+MM)*60`). -/
def hmsSec (base : ℕ) (rest2 : List Char) : Option ℕ :=
  match minSecVal (rest2.takeWhile isDigitChar) with
  | none => none
  | some sv =>
      match rest2.dropWhile isDigitChar with
      | [] => some ((base + sv) * 1000)
      | '.' :: fr => if isDigits fr then some ((base + sv) * 1000 + fracMsOf fr) else none
      | _ => none

/-- Minutes stage of the `"HH:MM:SS[.mmm]"` regex: the `([0-5]?\d):` part
applied to the text after the first colon, given the hours value. -/
def hmsMin (hrsVal : ℕ) (rest1 : List Char) : Option ℕ :=
  match rest1.dropWhile (fun c => c != ':') with
  | ':' :: rest2 =>
      match minSecVal (rest1.takeWhile (fun c => c != ':')) with
      | none => none
      | some mv => hmsSec ((hrsVal * 60 + mv) * 60) rest2
  | _ => none

/-- The `"HH:MM:SS[.mmm]"` branch of `parseTimeToMs` (regex
`^(\d+):([0-5]?\d):([0-5]?\d)(\.\d+)?$`), value floor-truncated to
milliseconds in exact arithmetic. -/
def hmsMs (cs : List Char) : Option ℕ :=
  if (cs.takeWhile isDigitChar).isEmpty then none
  else
    match cs.dropWhile isDigitChar with
    | ':' :: rest1 => hmsMin (charsVal (cs.takeWhile isDigitChar)) rest1
    | _ => none

/-- Body of `parseTimeToMs` after trimming: bare-number regex first, then the
`HH:MM:SS` regex, mirroring the order in the source. -/
def timeMsOfChars (cs : List Char) : Option ℕ :=
  match bareNumberMs cs with
  | some ms => some ms
  | none => hmsMs cs

/-- Model of `parseTimeToMs` from `src/convert.ts` (lines 51-71): `undefined` for a
missing or empty value, otherwise trim and try the two regexes. -/
def parseTimeToMs (value : Option String) : Option ℕ :=
  match value with
  | none => none
  | some v =>
      if v.data.isEmpty then none
      else
        let trimmed := jsTrim v.data
        if trimmed.isEmpty then none else timeMsOfChars trimmed

/-- Model of `computeEffectiveDurationMs` from `src/convert.ts` (lines 73-82).
`Math.max(0, full - start)` is the truncated `Nat` subtraction. -/
def computeEffectiveDurationMs (fullDurationMs startMs explicitDurationMs : Option ℕ) :
    Option ℕ :=
  match explicitDurationMs with
  | some e => some e
  | none =>
    match fullDurationMs with
    | none => none
    | some f =>
      match startMs with
      | none => some f
      | some s => some (f - s)

/-! ## Process Runner telemetry (`parseOutTimeMs` from the runner module) -/

/-- Association-list lookup, the model of reading `raw[key]` on the telemetry
record (first binding wins; the builder overwrites duplicates, so blocks built
by the runner have unique keys). -/
def lookupAssoc {β : Type} (kvs : List (String × β)) (k : String) : Option β :=
  match kvs with
  | [] => none
  | (k', v) :: rest => if k' = k then some v else lookupAssoc rest k

/-- The `out_time_ms` fallback branch of `parseOutTimeMs`: an all-digits value
above 60,000,000 is reinterpreted as microseconds and divided by 1000. -/
def outTimeMsField (raw : List (String × String)) : Option ℕ :=
  match lookupAssoc raw "out_time_ms" with
  | some s =>
      if isDigits s.data then
        some (if 60000000 < charsVal s.data then charsVal s.data / 1000 else charsVal s.data)
      else none
  | none => none

/-- Model of `parseOutTimeMs` from the process-runner module (lines 251-267):
prefer an all-digits `out_time_us` (microseconds, floor-divided by 1000),
fall back to `out_time_ms` with the magnitude heuristic, else `undefined`. -/
def parseOutTimeMs (raw : List (String × String)) : Option ℕ :=
  match lookupAssoc raw "out_time_us" with
  | some s => if isDigits s.data then some (charsVal s.data / 1000) else outTimeMsField raw
  | none => outTimeMsField raw

/-! ## Conversion request and engine command lines (`src/convert.ts`) -/

/-- Model of `ConvertOptions` from `src/convert.ts` (lines 6-15). -/
structure ConvertOptions where
  input : String
  output : String
  width : ℕ
  fps : ℕ
  start : Option String
  duration : Option String
  overwrite : Bool
  loop : Fin 2
deriving DecidableEq

/-- JS `String(loop)` for `loop : 0 | 1`. -/
def loopStr (l : Fin 2) : String := if l.val = 1 then "1" else "0"

/-- Decimal rendering of a natural number (JS number-to-string for the
integers appearing in template literals), with structural fuel so that it
reduces in the kernel. -/
def natToCharsFuel : ℕ → ℕ → List Char
  | 0, _ => []
  | fuel + 1, n =>
      if n < 10 then [Char.ofNat (48 + n)]
      else natToCharsFuel fuel (n / 10) ++ [Char.ofNat (48 + n % 10)]

/-- Decimal digit list of a natural number. -/
def natToChars (n : ℕ) : List Char := natToCharsFuel (n + 1) n

/-- Decimal string of a natural number, model of `${n}` in a template literal. -/
def natStr (n : ℕ) : String := String.mk (natToChars n)

/-- Model of `baseFilters` from `src/convert.ts` (lines 111-114). -/
def baseFilters (opts : ConvertOptions) : String :=
  "fps=" ++ natStr opts.fps ++ ",scale=" ++ natStr opts.width ++
    ":-1:flags=lanczos:force_original_aspect_ratio=decrease"

/-- Model of `commonSeekArgs` from `src/convert.ts` (lines 116-118): `-ss`/`-t` are
pushed only for truthy (present, non-empty) start/duration strings. -/
def commonSeekArgs (opts : ConvertOptions) : List String :=
  (match opts.start with
   | some s => if s.isEmpty then [] else ["-ss", s]
   | none => []) ++
  (match opts.duration with
   | some s => if s.isEmpty then [] else ["-t", s]
   | none => [])

/-- The palette-phase ffmpeg argument list (`src/convert.ts` lines 122-133). -/
def paletteArgs (opts : ConvertOptions) (palettePath : String) : List String :=
  ["-y", "-v", "error"] ++ commonSeekArgs opts ++
    ["-i", opts.input, "-an", "-vf",
     baseFilters opts ++ ",palettegen=stats_mode=diff", palettePath]

/-- Model of `overwriteArgs` from `src/convert.ts` (line 136). -/
def overwriteArgs (opts : ConvertOptions) : List String :=
  if opts.overwrite then ["-y"] else ["-n"]

/-- The encode-phase ffmpeg argument list (`src/convert.ts` lines 142-158),
including the `-progress pipe:1 -nostats` flags appended by
`runFfmpegWithProgress`. -/
def encodeArgs (opts : ConvertOptions) (palettePath : String) : List String :=
  overwriteArgs opts ++ ["-v", "error"] ++ commonSeekArgs opts ++
    ["-i", opts.input, "-i", palettePath, "-an", "-lavfi",
     baseFilters opts ++ "[x];[x][1:v]paletteuse=dither=sierra2_4a",
     "-loop", loopStr opts.loop, opts.output] ++
    ["-progress", "pipe:1", "-nostats"]

/-! ## Progress events and the encode-phase percent formula -/

/-- Model of `ConvertProgress` from `src/convert.ts` (lines 17-20). -/
inductive ConvertProgress where
  | palette (percent : ℤ)
  | encode (percent : ℤ) (outTimeMs : Option ℕ) (durationMs : Option ℕ)
  | done (percent : ℤ)
deriving DecidableEq

/-- JS `Math.round` on an exact rational: `⌊q + 1/2⌋` (round half up). -/
def jsRound (q : ℚ) : ℤ := ⌊q + 1 / 2⌋

/-- Clamp into `[0, 1]`, model of `Math.max(0, Math.min(1, x))`. -/
def clampQ (x : ℚ) : ℚ := min 1 (max 0 x)

/-- The encode-phase percent of one telemetry block (`src/convert.ts` lines
159-166): `round(10 + 90 * clamp(outTimeMs / durationMs))` when the duration
is truthy (known and nonzero) and the elapsed time is defined, else frozen
at 10. -/
def encodePercent (durationMs outTimeMs : Option ℕ) : ℤ :=
  match durationMs, outTimeMs with
  | some d, some o =>
      if 0 < d then jsRound (10 + 90 * clampQ ((o : ℚ) / (d : ℚ))) else 10
  | _, _ => 10

/-- The percent carried by a progress event. -/
def percentOf : ConvertProgress → ℤ
  | .palette p => p
  | .encode p _ _ => p
  | .done p => p

/-- The percent sequence of an event trace. -/
def percents (es : List ConvertProgress) : List ℤ := es.map percentOf

/-- Recogniser for palette-phase events. -/
def isPaletteEvent : ConvertProgress → Bool
  | .palette _ => true
  | _ => false

/-- Recogniser for terminal `done` events. -/
def isDoneEvent : ConvertProgress → Bool
  | .done _ => true
  | _ => false

/-! ## Operational model of `convertVideoToGifWithProgress` -/

/-- The character list of the temporary palette path
`path.join(os.tmpdir(), `videotogif-palette-PID-NOW.png`)`
(`src/convert.ts` line 109). -/
def palettePathChars (tmpdir : String) (pid now : ℕ) : List Char :=
  tmpdir.data ++ "/videotogif-palette-".data ++
    (natToChars pid ++ '-' :: (natToChars now ++ ".png".data))

/-- The temporary palette path generated by a pipeline run, determined by the
scratch directory, the process id and the `Date.now()` millisecond timestamp.
No random component enters the name. -/
def mkPalettePath (tmpdir : String) (pid now : ℕ) : String :=
  String.mk (palettePathChars tmpdir pid now)

/-- Errors thrown by the pipeline (§7 taxonomy, restricted to the pipeline). -/
inductive ConvError where
  | engineUnavailable
  | inputNotFound
  | outputExists
  | engineExecutionError
deriving DecidableEq

/-- Subprocess invocations the pipeline can spawn, in order of appearance in
the source: the `ffmpeg -version` availability probe, the palette-phase run,
the `ffprobe` duration probe, and the progress-aware encode run. -/
inductive Spawn where
  | versionProbe
  | paletteRun (args : List String)
  | durationProbe (input : String)
  | encodeRun (args : List String)
deriving DecidableEq

/-- Abstract environment for one pipeline run: outcomes of filesystem checks
and subprocess invocations, process identity, and the telemetry block stream
delivered by the encode run (one `Option ℕ` per block, the value
`parseOutTimeMs` derived for it). -/
structure Env where
  ffmpegAvailable : Bool
  inputExists : Bool
  outputExists : Bool
  tmpdir : String
  pid : ℕ
  now : ℕ
  paletteOk : Bool
  probeResult : Option ℕ
  encodeOk : Bool
  telemetry : List (Option ℕ)
  unlinkOk : Bool
deriving DecidableEq

/-- Observable outcome of one pipeline run: the result (normal return or
thrown error), the emitted progress events in order, the subprocesses spawned
in order, the palette path if its allocation was reached, and the outcomes of
the palette-deletion attempts made in the `finally` block. -/
structure RunOutcome where
  result : Except ConvError Unit
  events : List ConvertProgress
  spawns : List Spawn
  palettePathUsed : Option String
  unlinks : List Bool

/-- The effective encode-phase duration computed by the pipeline
(`src/convert.ts` lines 138-141). -/
def effDurationOf (opts : ConvertOptions) (env : Env) : Option ℕ :=
  computeEffectiveDurationMs env.probeResult (parseTimeToMs opts.start)
    (parseTimeToMs opts.duration)

/-- Operational model of `convertVideoToGifWithProgress` (`src/convert.ts`
lines 88-178): availability probe, input check, output-exists check, palette
path allocation, palette run, duration probe, encode run with telemetry
mapping, terminal event, and unconditional palette deletion in `finally`
whose own failure is swallowed. -/
def convertRun (opts : ConvertOptions) (env : Env) : RunOutcome :=
  if env.ffmpegAvailable = false then
    ⟨.error .engineUnavailable, [], [.versionProbe], none, []⟩
  else if env.inputExists = false then
    ⟨.error .inputNotFound, [], [.versionProbe], none, []⟩
  else if opts.overwrite = false ∧ env.outputExists = true then
    ⟨.error .outputExists, [], [.versionProbe], none, []⟩
  else
    let pp := mkPalettePath env.tmpdir env.pid env.now
    if env.paletteOk = false then
      ⟨.error .engineExecutionError, [.palette 0],
        [.versionProbe, .paletteRun (paletteArgs opts pp)], some pp, [env.unlinkOk]⟩
    else
      let durationMs := effDurationOf opts env
      let encodeEvents := env.telemetry.map
        (fun o => ConvertProgress.encode (encodePercent durationMs o) o durationMs)
      if env.encodeOk = false then
        ⟨.error .engineExecutionError,
          [.palette 0, .palette 10] ++ encodeEvents,
          [.versionProbe, .paletteRun (paletteArgs opts pp), .durationProbe opts.input,
            .encodeRun (encodeArgs opts pp)],
          some pp, [env.unlinkOk]⟩
      else
        ⟨.ok (),
          [.palette 0, .palette 10] ++ encodeEvents ++ [.done 100],
          [.versionProbe, .paletteRun (paletteArgs opts pp), .durationProbe opts.input,
            .encodeRun (encodeArgs opts pp)],
          some pp, [env.unlinkOk]⟩

/-! ## Job registry: the result endpoint (web server module, lines 127-150) -/

/-- Job status from the web server module. -/
inductive JobStatus where
  | running
  | done
  | error
deriving DecidableEq

/-- The fields of a `Job` record consulted by the result endpoint. -/
structure Job where
  status : JobStatus
  outputPath : Option String
  errorMsg : Option String
deriving DecidableEq

/-- Outcome of `GET /jobs/:id/result`: 404 for an unknown id, 409 with the
stored message for a failed job, 409 "still running" otherwise before
completion, else the artifact stream. -/
inductive FetchOutcome where
  | jobNotFound
  | jobFailed (msg : String)
  | jobNotReady
  | artifact (path : String)
deriving DecidableEq

/-- The result-endpoint handler (web server module, lines 127-150). The
`job.outputPath` truthiness test means a missing or empty path counts as "no
artifact yet". -/
def fetchResult (jobs : List (String × Job)) (id : String) : FetchOutcome :=
  match lookupAssoc jobs id with
  | none => .jobNotFound
  | some job =>
      if job.status = .error then .jobFailed (job.errorMsg.getD "Falha na conversão.")
      else if job.status ≠ .done ∨ job.outputPath.getD "" = "" then .jobNotReady
      else .artifact (job.outputPath.getD "")

/-! ## HTTP submission endpoint: form-field coercion (web server module) -/

/-- Value of one hexadecimal digit character, if any. -/
def hexDigitVal (c : Char) : Option ℕ :=
  if isDigitChar c then some (c.toNat - 48)
  else if 97 ≤ c.toNat ∧ c.toNat ≤ 102 then some (c.toNat - 87)
  else if 65 ≤ c.toNat ∧ c.toNat ≤ 70 then some (c.toNat - 55)
  else none

/-- Value of a non-empty digit string in the given radix, if every character
is a valid digit below the radix. -/
def radixVal (radix : ℕ) (cs : List Char) : Option ℕ :=
  if cs.isEmpty then none
  else
    cs.foldl
      (fun acc c =>
        match acc, hexDigitVal c with
        | some a, some d => if d < radix then some (a * radix + d) else none
        | _, _ => none)
      (some 0)

/-- Exponent part of a JS decimal literal: empty, or `e`/`E` with an optional
sign and digits; returns the power-of-ten scale factor. -/
def expPartQ (cs : List Char) : Option ℚ :=
  match cs with
  | [] => some 1
  | 'e' :: r | 'E' :: r =>
      match r with
      | '+' :: ds => if isDigits ds then some ((10 : ℚ) ^ charsVal ds) else none
      | '-' :: ds => if isDigits ds then some ((10 : ℚ) ^ (-(charsVal ds : ℤ))) else none
      | ds => if isDigits ds then some ((10 : ℚ) ^ charsVal ds) else none
  | _ => none

/-- Unsigned JS decimal literal `digits [. digits] [exp]` (at least one digit
around the point), exact rational value. -/
def decLitQ (cs : List Char) : Option ℚ :=
  let intPart := cs.takeWhile isDigitChar
  let rest := cs.dropWhile isDigitChar
  match rest with
  | '.' :: r2 =>
      let frPart := r2.takeWhile isDigitChar
      let r3 := r2.dropWhile isDigitChar
      if intPart.isEmpty ∧ frPart.isEmpty then none
      else (expPartQ r3).map
        (fun e => ((charsVal intPart : ℚ) + (charsVal frPart : ℚ) / 10 ^ frPart.length) * e)
  | _ =>
      if intPart.isEmpty then none
      else (expPartQ rest).map (fun e => (charsVal intPart : ℚ) * e)

/-- Unsigned branch after the sign: `Infinity` (modelled as `none`, since the
only consumer immediately rejects non-integers exactly as it rejects `NaN`)
or a decimal literal. -/
def decNonNeg (cs : List Char) : Option ℚ :=
  if cs = "Infinity".data then none else decLitQ cs

/-- Model of JS `Number(string)` with exact rational arithmetic: trim, empty
is 0, optional sign with a decimal literal, or an unsigned hex/octal/binary
literal. `NaN` (and `Infinity`, see `decNonNeg`) is `none`. -/
def jsNumber (s : String) : Option ℚ :=
  match jsTrim s.data with
  | [] => some 0
  | '+' :: r => decNonNeg r
  | '-' :: r => (decNonNeg r).map (fun q => -q)
  | '0' :: 'x' :: r | '0' :: 'X' :: r => (radixVal 16 r).map (fun n => (n : ℚ))
  | '0' :: 'o' :: r | '0' :: 'O' :: r => (radixVal 8 r).map (fun n => (n : ℚ))
  | '0' :: 'b' :: r | '0' :: 'B' :: r => (radixVal 2 r).map (fun n => (n : ℚ))
  | cs => decNonNeg cs

/-- Test `Number.isInteger(q) && q > 0`. -/
def jsIsPositiveInteger (q : ℚ) : Bool := if q.den = 1 ∧ 0 < q.num then true else false

/-- Model of `parsePositiveInt` from the web server module (lines 10-15): a non-string
value, or a string whose JS number is not a positive integer, falls back to
the default. -/
def parsePositiveInt (value : Option String) (fallback : ℕ) : ℕ :=
  match value with
  | none => fallback
  | some s =>
      match jsNumber s with
      | none => fallback
      | some q => if jsIsPositiveInteger q then q.num.toNat else fallback

/-- Decides whether a form value is a string whose JS number is a positive
integer (the only case in which `parsePositiveInt` does not fall back). -/
def representsPosInt (value : Option String) : Bool :=
  match value with
  | none => false
  | some s =>
      match jsNumber s with
      | none => false
      | some q => jsIsPositiveInteger q

/-- Model of `parseTimeString` from the web server module (lines 17-21). -/
def parseTimeString (value : Option String) : Option String :=
  match value with
  | none => none
  | some s =>
      let t := String.mk (jsTrim s.data)
      if t.isEmpty then none else some t

/-- Model of `parseLoop` from the web server module (lines 23-26): only the exact
string `"1"` yields loop 1. -/
def parseLoop (value : Option String) : Fin 2 :=
  if value = some "1" then 1 else 0

/-- The form fields of a `POST /convert` request; a field that is absent or
not a string is `none`. -/
structure WebForm where
  width : Option String
  fps : Option String
  start : Option String
  duration : Option String
  loop : Option String
deriving DecidableEq

/-- The `ConvertOptions` built by the `POST /convert` handler (web server
module, lines 159-195): defaults 480/15, loop coercion, and `overwrite`
forced to `true`. -/
def buildConvertOptions (inputPath outputPath : String) (f : WebForm) : ConvertOptions :=
  { input := inputPath
    output := outputPath
    width := parsePositiveInt f.width 480
    fps := parsePositiveInt f.fps 15
    start := parseTimeString f.start
    duration := parseTimeString f.duration
    overwrite := true
    loop := parseLoop f.loop }

/-! ## Specification-side denotation of time specs (claim C6) -/

/-- Spec-side reading of the minutes/seconds field `[0-5]?\d`: at most two
digits denoting a value in `[0, 59]`. -/
def MinSecDenotes (cs : List Char) (v : ℕ) : Prop :=
  isDigits cs = true ∧ cs.length ≤ 2 ∧ charsVal cs = v ∧ v ≤ 59

/-- Spec-side denotation of a bare non-negative decimal seconds value
(`\d+` or `\d+.\d+`), with its exact rational value. -/
def BareDenotes (cs : List Char) (q : ℚ) : Prop :=
  (isDigits cs = true ∧ q = (charsVal cs : ℚ)) ∨
  (∃ a b : List Char, cs = a ++ '.' :: b ∧ isDigits a = true ∧ isDigits b = true ∧
    q = (charsVal a : ℚ) + (charsVal b : ℚ) / 10 ^ b.length)

/-- Spec-side denotation of an `HH:MM:SS[.fraction]` time spec with minutes
and seconds in `[0, 59]`, with its exact rational value in seconds. -/
def HMSDenotes (cs : List Char) (q : ℚ) : Prop :=
  ∃ (hh mm ss tail : List Char) (mv sv : ℕ),
    cs = hh ++ ':' :: (mm ++ ':' :: (ss ++ tail)) ∧
    isDigits hh = true ∧ MinSecDenotes mm mv ∧ MinSecDenotes ss sv ∧
    ((tail = [] ∧ q = ((charsVal hh * 3600 + mv * 60 + sv : ℕ) : ℚ)) ∨
     (∃ fr, tail = '.' :: fr ∧ isDigits fr = true ∧
       q = ((charsVal hh * 3600 + mv * 60 + sv : ℕ) : ℚ) +
         (charsVal fr : ℚ) / 10 ^ fr.length))

/-- Spec-side denotation of a time spec: either grammar alternative. -/
def TimeSpecDenotes (cs : List Char) (q : ℚ) : Prop :=
  BareDenotes cs q ∨ HMSDenotes cs q

/-! ## Concrete instantiation data for witnesses -/

/-- The percent-map, palette-exactness, terminal-event and encode-formula
properties claimed for the event trace of a successful run (claim C1). -/
def C1Conclusion (opts : ConvertOptions) (env : Env) : Prop :=
  (percents (convertRun opts env).events).Chain' (· ≤ ·) ∧
  (convertRun opts env).events.filter isPaletteEvent =
    [ConvertProgress.palette 0, ConvertProgress.palette 10] ∧
  (convertRun opts env).events.filter isDoneEvent = [ConvertProgress.done 100] ∧
  (convertRun opts env).events.getLast? = some (ConvertProgress.done 100) ∧
  ∀ p o d, ConvertProgress.encode p o d ∈ (convertRun opts env).events →
    d = effDurationOf opts env ∧
    (∀ dv ov, d = some dv → 0 < dv → o = some ov →
      p = jsRound (10 + 90 * clampQ ((ov : ℚ) / (dv : ℚ)))) ∧
    ((d = none ∨ d = some 0) → p = 10)

/-- Request whose output already exists, without the overwrite flag. -/
def optsExists : ConvertOptions :=
  { input := "in.mp4", output := "out.gif", width := 480, fps := 15,
    start := none, duration := none, overwrite := false, loop := 0 }

/-- Environment with the engine available and both input and output present. -/
def envExists : Env :=
  { ffmpegAvailable := true, inputExists := true, outputExists := true,
    tmpdir := "/tmp", pid := 42, now := 1700000000000, paletteOk := true,
    probeResult := some 10000, encodeOk := true, telemetry := [], unlinkOk := true }

/-- A request that runs the whole pipeline successfully. -/
def optsOk : ConvertOptions :=
  { input := "in.mp4", output := "out.gif", width := 480, fps := 15,
    start := none, duration := none, overwrite := true, loop := 0 }

/-- A distinct concurrent request (different output) in the same process. -/
def optsOkB : ConvertOptions :=
  { input := "other.mp4", output := "other.gif", width := 480, fps := 15,
    start := none, duration := none, overwrite := true, loop := 0 }

/-- Environment of a successful run: all checks pass, the probe reports one
second, and three telemetry blocks arrive at 0, 500 and 2000 ms. -/
def envOk : Env :=
  { ffmpegAvailable := true, inputExists := true, outputExists := false,
    tmpdir := "/tmp", pid := 42, now := 1700000000000, paletteOk := true,
    probeResult := some 1000, encodeOk := true,
    telemetry := [some 0, some 500, some 2000], unlinkOk := true }

/-- Concrete telemetry block used to instantiate C2. -/
def rawBlockW : List (String × String) := [("out_time_us", "2500000")]

/-- Concrete registry used to instantiate C9. -/
def jobsW : List (String × Job) := [("a", ⟨.error, none, some "boom"⟩)]

/-- Concrete malformed form used to instantiate C10. -/
def formW : WebForm := ⟨some "abc", some "two", none, none, some "2"⟩

/-! ## Shared helper lemmas -/

/-- Lemma: `parsePositiveInt` falls back whenever the value does not represent a
positive integer. -/
theorem parsePositiveInt_default (v : Option String) (d : ℕ)
    (h : representsPosInt v = false) : parsePositiveInt v d = d := by
  cases v with
  | none => rfl
  | some s =>
      cases hn : jsNumber s with
      | none => simp [parsePositiveInt, hn]
      | some q =>
          simp only [representsPosInt, hn] at h
          simp [parsePositiveInt, hn, h]

/-! ## Claim theorems -/

/-- C7: `computeEffectiveDurationMs` returns the explicit duration whenever it
is known (even when the full duration is unknown); otherwise it is unknown
when the full duration is unknown; otherwise it is `max(0, full - start)` when
the start is known and `full` when the start is unknown; and the three
spec examples evaluate as stated. -/
theorem computeEffectiveDurationMs_spec :
    (∀ f s e, computeEffectiveDurationMs f s (some e) = some e) ∧
    (∀ s, computeEffectiveDurationMs none s none = none) ∧
    (∀ f s : ℕ, ∃ n, computeEffectiveDurationMs (some f) (some s) none = some n ∧
      (n : ℤ) = max 0 ((f : ℤ) - (s : ℤ))) ∧
    (∀ f : ℕ, computeEffectiveDurationMs (some f) none none = some f) ∧
    computeEffectiveDurationMs (some 10000) (some 2000) none = some 8000 ∧
    computeEffectiveDurationMs none (some 2000) none = none ∧
    computeEffectiveDurationMs (some 10000) none (some 5000) = some 5000 := by
  refine ⟨fun f s e => rfl, fun s => rfl, fun f s => ⟨f - s, rfl, ?_⟩,
    fun f => rfl, rfl, rfl, rfl⟩
  omega

/-- C5: the palette-phase and encode-phase command lines embed one and the
same trim-argument list `commonSeekArgs opts` (same flags, same values, same
order) at their seek position. -/
theorem trimArgs_shared (opts : ConvertOptions) (palettePath : String) :
    ∃ trim : List String,
      trim = commonSeekArgs opts ∧
      paletteArgs opts palettePath =
        ["-y", "-v", "error"] ++ trim ++
          ["-i", opts.input, "-an", "-vf",
            baseFilters opts ++ ",palettegen=stats_mode=diff", palettePath] ∧
      encodeArgs opts palettePath =
        overwriteArgs opts ++ ["-v", "error"] ++ trim ++
          ["-i", opts.input, "-i", palettePath, "-an", "-lavfi",
            baseFilters opts ++ "[x];[x][1:v]paletteuse=dither=sierra2_4a",
            "-loop", loopStr opts.loop, opts.output] ++
          ["-progress", "pipe:1", "-nostats"] :=
  ⟨commonSeekArgs opts, rfl, rfl, rfl⟩

/-- C2: a telemetry block's elapsed-output-time is `floor(out_time_us / 1000)`
for an all-digits `out_time_us`; otherwise, from an all-digits `out_time_ms`,
`floor(out_time_ms / 1000)` when its value exceeds 60,000,000 and the value
itself otherwise; and undefined when neither field is present with an
all-digits value. -/
theorem parseOutTimeMs_spec (raw : List (String × String)) :
    (∀ s, lookupAssoc raw "out_time_us" = some s → isDigits s.data = true →
      parseOutTimeMs raw = some (charsVal s.data / 1000)) ∧
    ((∀ s, lookupAssoc raw "out_time_us" = some s → isDigits s.data = false) →
      ∀ s, lookupAssoc raw "out_time_ms" = some s → isDigits s.data = true →
        parseOutTimeMs raw =
          some (if 60000000 < charsVal s.data then charsVal s.data / 1000
                else charsVal s.data)) ∧
    ((∀ s, lookupAssoc raw "out_time_us" = some s → isDigits s.data = false) →
      (∀ s, lookupAssoc raw "out_time_ms" = some s → isDigits s.data = false) →
      parseOutTimeMs raw = none) := by
  refine ⟨fun s hs hd => by simp [parseOutTimeMs, hs, hd], ?_, ?_⟩
  · intro hus s hs hd
    cases hu : lookupAssoc raw "out_time_us" with
    | none => simp [parseOutTimeMs, hu, outTimeMsField, hs, hd]
    | some u => simp [parseOutTimeMs, hu, hus u hu, outTimeMsField, hs, hd]
  · intro hus hms
    have hfield : outTimeMsField raw = none := by
      cases hm : lookupAssoc raw "out_time_ms" with
      | none => simp [outTimeMsField, hm]
      | some m => simp [outTimeMsField, hm, hms m hm]
    cases hu : lookupAssoc raw "out_time_us" with
    | none => simp [parseOutTimeMs, hu, hfield]
    | some u => simp [parseOutTimeMs, hu, hus u hu, hfield]


/-- C2 witness: on a block with `out_time_us=2500000`, the derived elapsed
time is 2500 milliseconds. -/
theorem parseOutTimeMs_spec_witness :
    lookupAssoc rawBlockW "out_time_us" = some "2500000" ∧
    isDigits "2500000".data = true ∧
    parseOutTimeMs rawBlockW = some 2500 := by
  refine ⟨rfl, by decide, ?_⟩
  have h := (parseOutTimeMs_spec rawBlockW).1 "2500000" rfl (by decide)
  exact h.trans (by decide)

/-- C9: the result endpoint yields `JobNotFound` for an unknown id,
`JobFailed` with the stored message for a job in error status, `JobNotReady`
while running or when a done job has no (truthy) artifact path, and otherwise
grants access to the finished artifact. -/
theorem fetchResult_spec (jobs : List (String × Job)) (id : String) :
    (lookupAssoc jobs id = none → fetchResult jobs id = .jobNotFound) ∧
    (∀ j, lookupAssoc jobs id = some j → j.status = .error →
      fetchResult jobs id = .jobFailed (j.errorMsg.getD "Falha na conversão.")) ∧
    (∀ j, lookupAssoc jobs id = some j → j.status = .running →
      fetchResult jobs id = .jobNotReady) ∧
    (∀ j, lookupAssoc jobs id = some j → j.status = .done →
      (j.outputPath = none ∨ j.outputPath = some "") →
      fetchResult jobs id = .jobNotReady) ∧
    (∀ j p, lookupAssoc jobs id = some j → j.status = .done → j.outputPath = some p →
      p ≠ "" → fetchResult jobs id = .artifact p) := by
  refine ⟨fun h => by simp [fetchResult, h], fun j hj hs => by simp [fetchResult, hj, hs],
    fun j hj hs => by simp [fetchResult, hj, hs], ?_, ?_⟩
  · intro j hj hs ho
    rcases ho with ho | ho <;> simp [fetchResult, hj, hs, ho]
  · intro j p hj hs hp hne
    simp [fetchResult, hj, hs, hp, hne]


/-- C9 witness: fetching the result of the registered failed job `"a"` yields
`JobFailed` with the stored message. -/
theorem fetchResult_spec_witness :
    lookupAssoc jobsW "a" = some ⟨.error, none, some "boom"⟩ ∧
    fetchResult jobsW "a" = .jobFailed "boom" := by
  refine ⟨rfl, ?_⟩
  exact (fetchResult_spec jobsW "a").2.1 ⟨.error, none, some "boom"⟩ rfl rfl

/-- C10: at the submission endpoint, a width or fps field that is not a
string representing a positive integer falls back to 480 / 15, a loop field
other than the exact string `"1"` is coerced to 0, and the conversion always
runs with `overwrite` forced to `true`. -/
theorem webFormCoercion_spec (f : WebForm) (inputPath outputPath : String) :
    (representsPosInt f.width = false →
      (buildConvertOptions inputPath outputPath f).width = 480) ∧
    (representsPosInt f.fps = false →
      (buildConvertOptions inputPath outputPath f).fps = 15) ∧
    (f.loop ≠ some "1" → (buildConvertOptions inputPath outputPath f).loop = 0) ∧
    (buildConvertOptions inputPath outputPath f).overwrite = true := by
  refine ⟨fun h => parsePositiveInt_default f.width 480 h,
    fun h => parsePositiveInt_default f.fps 15 h,
    fun h => ?_, rfl⟩
  simp [buildConvertOptions, parseLoop, h]


/-- C10 witness: width `"abc"`, fps `"0"` and loop `"2"` coerce to 480, 15
and 0, and overwrite is forced on. -/
theorem webFormCoercion_spec_witness :
    representsPosInt formW.width = false ∧ representsPosInt formW.fps = false ∧
    formW.loop ≠ some "1" ∧
    (buildConvertOptions "in.mp4" "out.gif" formW).width = 480 ∧
    (buildConvertOptions "in.mp4" "out.gif" formW).fps = 15 ∧
    (buildConvertOptions "in.mp4" "out.gif" formW).loop = 0 ∧
    (buildConvertOptions "in.mp4" "out.gif" formW).overwrite = true := by
  have h := webFormCoercion_spec formW "in.mp4" "out.gif"
  exact ⟨by decide, by decide, by decide, h.1 (by decide), h.2.1 (by decide),
    h.2.2.1 (by decide), h.2.2.2⟩

theorem isDigits_iff (cs : List Char) :
    isDigits cs = true ↔ cs ≠ [] ∧ ∀ c ∈ cs, isDigitChar c = true := by
  simp [isDigits, List.all_eq_true, List.isEmpty_iff]

theorem mem_takeWhile {p : Char → Bool} : ∀ {l : List Char} {c : Char},
    c ∈ l.takeWhile p → p c = true := by
  intro l
  induction l with
  | nil => intro c hc; simp [List.takeWhile] at hc
  | cons a t ih =>
      intro c hc
      rw [List.takeWhile_cons] at hc
      by_cases ha : p a = true
      · simp only [ha, if_true] at hc
        rcases List.mem_cons.mp hc with rfl | hc
        · exact ha
        · exact ih hc
      · simp only [ha, if_false] at hc
        simp at hc

theorem takeWhile_eq_of_all {p : Char → Bool} {l : List Char} (h : ∀ c ∈ l, p c = true) :
    l.takeWhile p = l ∧ l.dropWhile p = [] := by
  induction l with
  | nil => exact ⟨rfl, rfl⟩
  | cons a t ih =>
      have ha := h a (by simp)
      have iht := ih (fun c hc => h c (by simp [hc]))
      simp [List.takeWhile_cons, List.dropWhile_cons, ha, iht.1, iht.2]

theorem takeWhile_split {p : Char → Bool} {a : List Char} {c : Char} {b : List Char}
    (ha : ∀ x ∈ a, p x = true) (hc : p c = false) :
    (a ++ c :: b).takeWhile p = a ∧ (a ++ c :: b).dropWhile p = c :: b := by
  induction a with
  | nil => simp [List.takeWhile_cons, List.dropWhile_cons, hc]
  | cons x t ih =>
      have hx := ha x (by simp)
      have iht := ih (fun y hy => ha y (by simp [hy]))
      simp [List.takeWhile_cons, List.dropWhile_cons, hx, iht.1, iht.2]

theorem floorThousand (b : ℕ) (fr : List Char) :
    b * 1000 + fracMsOf fr =
      ⌊(1000 : ℚ) * ((b : ℚ) + (charsVal fr : ℚ) / 10 ^ fr.length)⌋₊ := by
  have hexp : (1000 : ℚ) * ((b : ℚ) + (charsVal fr : ℚ) / 10 ^ fr.length)
      = ((charsVal fr * 1000 : ℕ) : ℚ) / ((10 ^ fr.length : ℕ) : ℚ) + ((b * 1000 : ℕ) : ℚ) := by
    push_cast
    ring
  rw [hexp, Nat.floor_add_nat (by positivity), Nat.floor_div_nat, Nat.floor_natCast]
  simp only [fracMsOf]
  exact Nat.add_comm _ _

theorem floorThousandPure (b : ℕ) : b * 1000 = ⌊(1000 : ℚ) * (b : ℚ)⌋₊ := by
  have h : (1000 : ℚ) * (b : ℚ) = ((b * 1000 : ℕ) : ℚ) := by push_cast; ring
  rw [h, Nat.floor_natCast]

theorem isDigits_singleton (c : Char) : isDigits [c] = isDigitChar c := by
  simp [isDigits]

theorem isDigits_pair (c1 c2 : Char) :
    isDigits [c1, c2] = (isDigitChar c1 && isDigitChar c2) := by
  simp [isDigits]

theorem charsVal_singleton (c : Char) : charsVal [c] = c.toNat - 48 := by
  simp [charsVal]

theorem charsVal_pair (c1 c2 : Char) :
    charsVal [c1, c2] = (c1.toNat - 48) * 10 + (c2.toNat - 48) := by
  simp [charsVal]

theorem digit_bounds {c : Char} (h : isDigitChar c = true) :
    48 ≤ c.toNat ∧ c.toNat ≤ 57 := by
  simpa [isDigitChar] using h

theorem isDigitChar_ne_colon {c : Char} (h : isDigitChar c = true) : (c != ':') = true := by
  have hb := digit_bounds h
  simp only [bne_iff_ne, ne_eq]
  intro hc
  subst hc
  exact absurd hb (by decide)

theorem minSecVal_eq_some_iff (cs : List Char) (v : ℕ) :
    minSecVal cs = some v ↔ MinSecDenotes cs v := by
  unfold MinSecDenotes
  match cs with
  | [] => simp [minSecVal, isDigits]
  | [c] =>
      by_cases h : isDigitChar c = true
      · have hb := digit_bounds h
        simp only [minSecVal, if_pos h, Option.some.injEq]
        rw [isDigits_singleton, charsVal_singleton]
        simp only [List.length_singleton]
        constructor
        · intro hv
          exact ⟨h, by omega, hv, by omega⟩
        · rintro ⟨_, _, hv, _⟩
          exact hv
      · simp only [minSecVal, if_neg h]
        rw [isDigits_singleton]
        simp [h]
  | [c1, c2] =>
      by_cases h1 : isDigitChar c1 = true
      · by_cases h3 : isDigitChar c2 = true
        · have hb1 := digit_bounds h1
          have hb3 := digit_bounds h3
          by_cases h2 : c1.toNat ≤ 53
          · have hcond : isDigitChar c1 = true ∧ c1.toNat ≤ 53 ∧ isDigitChar c2 = true :=
              ⟨h1, h2, h3⟩
            simp only [minSecVal, if_pos hcond, Option.some.injEq]
            rw [isDigits_pair, charsVal_pair]
            simp only [List.length_cons, List.length_nil]
            constructor
            · intro hv
              exact ⟨by simp [h1, h3], by omega, hv, by omega⟩
            · rintro ⟨_, _, hv, _⟩
              exact hv
          · have hcond : ¬(isDigitChar c1 = true ∧ c1.toNat ≤ 53 ∧ isDigitChar c2 = true) :=
              fun hc => h2 hc.2.1
            simp only [minSecVal, if_neg hcond]
            rw [isDigits_pair, charsVal_pair]
            constructor
            · intro hv
              simp at hv
            · rintro ⟨_, _, hv, hle⟩
              exact absurd hle (by omega)
        · have hcond : ¬(isDigitChar c1 = true ∧ c1.toNat ≤ 53 ∧ isDigitChar c2 = true) :=
            fun hc => h3 hc.2.2
          simp [minSecVal, if_neg hcond, isDigits_pair, h3]
      · have hcond : ¬(isDigitChar c1 = true ∧ c1.toNat ≤ 53 ∧ isDigitChar c2 = true) :=
          fun hc => h1 hc.1
        simp [minSecVal, if_neg hcond, isDigits_pair, h1]
  | c1 :: c2 :: c3 :: t =>
      simp only [minSecVal]
      constructor
      · intro hv
        simp at hv
      · rintro ⟨_, hlen, _⟩
        exfalso
        simp only [List.length_cons] at hlen
        omega

theorem bareNumberMs_eq_some_iff (cs : List Char) (n : ℕ) :
    bareNumberMs cs = some n ↔ ∃ q, BareDenotes cs q ∧ n = ⌊(1000 : ℚ) * q⌋₊ := by
  constructor
  · intro h
    simp only [bareNumberMs] at h
    by_cases hI : (cs.takeWhile isDigitChar).isEmpty = true
    · rw [if_pos hI] at h
      simp at h
    · rw [if_neg hI] at h
      have hsplit := List.takeWhile_append_dropWhile (p := isDigitChar) (l := cs)
      have hne : cs.takeWhile isDigitChar ≠ [] := by simpa [List.isEmpty_iff] using hI
      have hdigits : isDigits (cs.takeWhile isDigitChar) = true :=
        (isDigits_iff _).mpr ⟨hne, fun c hc => mem_takeWhile hc⟩
      split at h
      · rename_i heq
        rw [heq, List.append_nil] at hsplit
        rw [Option.some.injEq] at h
        refine ⟨(charsVal cs : ℚ), Or.inl ⟨by rw [← hsplit]; exact hdigits, rfl⟩, ?_⟩
        rw [← h, hsplit]
        exact floorThousandPure _
      · rename_i fr heq
        rw [heq] at hsplit
        by_cases hd : isDigits fr = true
        · rw [if_pos hd, Option.some.injEq] at h
          refine ⟨(charsVal (cs.takeWhile isDigitChar) : ℚ) +
              (charsVal fr : ℚ) / 10 ^ fr.length,
            Or.inr ⟨cs.takeWhile isDigitChar, fr, hsplit.symm, hdigits, hd, rfl⟩, ?_⟩
          rw [← h]
          exact floorThousand _ _
        · rw [if_neg hd] at h
          simp at h
      · simp at h
  · rintro ⟨q, hden, rfl⟩
    rcases hden with ⟨hdig, rfl⟩ | ⟨a, b, rfl, hda, hdb, rfl⟩
    · obtain ⟨hne, hall⟩ := (isDigits_iff _).mp hdig
      obtain ⟨hT, hD⟩ := takeWhile_eq_of_all hall
      simp only [bareNumberMs]
      rw [hT, hD, if_neg (by simpa [List.isEmpty_iff] using hne)]
      exact congrArg some (floorThousandPure _)
    · obtain ⟨hnea, halla⟩ := (isDigits_iff _).mp hda
      obtain ⟨hT, hD⟩ := takeWhile_split halla (by decide : isDigitChar '.' = false)
      simp only [bareNumberMs]
      rw [hT, hD, if_neg (by simpa [List.isEmpty_iff] using hnea)]
      show (if isDigits b = true then some (charsVal a * 1000 + fracMsOf b) else none) = _
      rw [if_pos hdb]
      exact congrArg some (floorThousand _ _)

theorem hmsSec_eq_some_iff (base : ℕ) (rest2 : List Char) (n : ℕ) :
    hmsSec base rest2 = some n ↔
      ∃ (ss tail : List Char) (sv : ℕ), rest2 = ss ++ tail ∧ MinSecDenotes ss sv ∧
        ((tail = [] ∧ n = (base + sv) * 1000) ∨
         (∃ fr, tail = '.' :: fr ∧ isDigits fr = true ∧
           n = (base + sv) * 1000 + fracMsOf fr)) := by
  constructor
  · intro h
    simp only [hmsSec] at h
    have hsplit := List.takeWhile_append_dropWhile (p := isDigitChar) (l := rest2)
    split at h
    · simp at h
    · rename_i sv heqs
      split at h
      · rename_i heqa
        rw [heqa, List.append_nil] at hsplit
        rw [Option.some.injEq] at h
        exact ⟨rest2.takeWhile isDigitChar, [], sv, by rw [List.append_nil, hsplit],
          (minSecVal_eq_some_iff _ _).mp heqs, Or.inl ⟨rfl, h.symm⟩⟩
      · rename_i fr heqa
        rw [heqa] at hsplit
        by_cases hd : isDigits fr = true
        · rw [if_pos hd, Option.some.injEq] at h
          exact ⟨rest2.takeWhile isDigitChar, '.' :: fr, sv, hsplit.symm,
            (minSecVal_eq_some_iff _ _).mp heqs, Or.inr ⟨fr, rfl, hd, h.symm⟩⟩
        · rw [if_neg hd] at h
          simp at h
      · simp at h
  · rintro ⟨ss, tail, sv, rfl, hssD, hcase⟩
    have hsd := hssD.1
    obtain ⟨hness, hallss⟩ := (isDigits_iff _).mp hsd
    rcases hcase with ⟨rfl, rfl⟩ | ⟨fr, rfl, hfr, rfl⟩
    · obtain ⟨hT, hD⟩ := takeWhile_eq_of_all hallss
      simp only [hmsSec, List.append_nil, hT, hD]
      rw [(minSecVal_eq_some_iff ss sv).mpr hssD]
    · obtain ⟨hT, hD⟩ := takeWhile_split (b := fr) hallss (by decide : isDigitChar '.' = false)
      simp only [hmsSec, hT, hD]
      rw [(minSecVal_eq_some_iff ss sv).mpr hssD]
      show (if isDigits fr = true then some ((base + sv) * 1000 + fracMsOf fr) else none) = _
      rw [if_pos hfr]

theorem hmsMin_eq_some_iff (hrsVal : ℕ) (rest1 : List Char) (n : ℕ) :
    hmsMin hrsVal rest1 = some n ↔
      ∃ (mm rest2 : List Char) (mv : ℕ), rest1 = mm ++ ':' :: rest2 ∧
        MinSecDenotes mm mv ∧ hmsSec ((hrsVal * 60 + mv) * 60) rest2 = some n := by
  constructor
  · intro h
    simp only [hmsMin] at h
    have hsplit := List.takeWhile_append_dropWhile (p := fun c => c != ':') (l := rest1)
    split at h
    · rename_i rest2 heq
      rw [heq] at hsplit
      split at h
      · simp at h
      · rename_i mv heqm
        exact ⟨rest1.takeWhile (fun c => c != ':'), rest2, mv, hsplit.symm,
          (minSecVal_eq_some_iff _ _).mp heqm, h⟩
    · simp at h
  · rintro ⟨mm, rest2, mv, rfl, hmmD, hsec⟩
    have hallmm : ∀ x ∈ mm, (x != ':') = true := fun x hx =>
      isDigitChar_ne_colon (((isDigits_iff mm).mp hmmD.1).2 x hx)
    obtain ⟨hT, hD⟩ := takeWhile_split (b := rest2) hallmm
      (by decide : ((':' : Char) != ':') = false)
    simp only [hmsMin, hT, hD]
    rw [(minSecVal_eq_some_iff mm mv).mpr hmmD]
    exact hsec

theorem hmsMs_eq_some_iff (cs : List Char) (n : ℕ) :
    hmsMs cs = some n ↔ ∃ q, HMSDenotes cs q ∧ n = ⌊(1000 : ℚ) * q⌋₊ := by
  constructor
  · intro h
    simp only [hmsMs] at h
    by_cases hI : (cs.takeWhile isDigitChar).isEmpty = true
    · rw [if_pos hI] at h
      simp at h
    · rw [if_neg hI] at h
      have hsplit := List.takeWhile_append_dropWhile (p := isDigitChar) (l := cs)
      have hne : cs.takeWhile isDigitChar ≠ [] := by simpa [List.isEmpty_iff] using hI
      have hdigits : isDigits (cs.takeWhile isDigitChar) = true :=
        (isDigits_iff _).mpr ⟨hne, fun c hc => mem_takeWhile hc⟩
      split at h
      · rename_i rest1 heq
        rw [heq] at hsplit
        obtain ⟨mm, rest2, mv, rfl, hmmD, hsec⟩ := (hmsMin_eq_some_iff _ _ _).mp h
        obtain ⟨ss, tail, sv, rfl, hssD, hcase⟩ := (hmsSec_eq_some_iff _ _ _).mp hsec
        set hh := cs.takeWhile isDigitChar with hhh
        have hcs : cs = hh ++ ':' :: (mm ++ ':' :: (ss ++ tail)) := hsplit.symm
        rcases hcase with ⟨rfl, rfl⟩ | ⟨fr, rfl, hfr, rfl⟩
        · refine ⟨((charsVal hh * 3600 + mv * 60 + sv : ℕ) : ℚ),
            ⟨hh, mm, ss, [], mv, sv, hcs, hdigits, hmmD, hssD, Or.inl ⟨rfl, rfl⟩⟩, ?_⟩
          have harith : ((charsVal hh * 60 + mv) * 60 + sv) = charsVal hh * 3600 + mv * 60 + sv := by
            ring
          rw [harith]
          exact floorThousandPure _
        · refine ⟨((charsVal hh * 3600 + mv * 60 + sv : ℕ) : ℚ) +
              (charsVal fr : ℚ) / 10 ^ fr.length,
            ⟨hh, mm, ss, '.' :: fr, mv, sv, hcs, hdigits, hmmD, hssD,
              Or.inr ⟨fr, rfl, hfr, rfl⟩⟩, ?_⟩
          have harith : ((charsVal hh * 60 + mv) * 60 + sv) = charsVal hh * 3600 + mv * 60 + sv := by
            ring
          rw [harith]
          exact floorThousand _ _
      · simp at h
  · rintro ⟨q, ⟨hh, mm, ss, tail, mv, sv, rfl, hhd, hmmD, hssD, hval⟩, rfl⟩
    obtain ⟨hneh, hallh⟩ := (isDigits_iff _).mp hhd
    obtain ⟨hT, hD⟩ := takeWhile_split (b := mm ++ ':' :: (ss ++ tail)) hallh
      (by decide : isDigitChar ':' = false)
    simp only [hmsMs, hT, hD]
    rw [if_neg (by simpa [List.isEmpty_iff] using hneh)]
    show hmsMin (charsVal hh) (mm ++ ':' :: (ss ++ tail)) = _
    rw [hmsMin_eq_some_iff]
    refine ⟨mm, ss ++ tail, mv, rfl, hmmD, ?_⟩
    rw [hmsSec_eq_some_iff]
    refine ⟨ss, tail, sv, rfl, hssD, ?_⟩
    have harith : ((charsVal hh * 60 + mv) * 60 + sv) = charsVal hh * 3600 + mv * 60 + sv := by
      ring
    rcases hval with ⟨rfl, rfl⟩ | ⟨fr, rfl, hfr, rfl⟩
    · refine Or.inl ⟨rfl, ?_⟩
      rw [harith]
      exact (floorThousandPure _).symm
    · refine Or.inr ⟨fr, rfl, hfr, ?_⟩
      rw [harith]
      exact (floorThousand _ _).symm

theorem bareNumberMs_of_hms {cs : List Char} {q : ℚ} (h : HMSDenotes cs q) :
    bareNumberMs cs = none := by
  obtain ⟨hh, mm, ss, tail, mv, sv, rfl, hhd, -, -, -⟩ := h
  obtain ⟨hneh, hallh⟩ := (isDigits_iff _).mp hhd
  obtain ⟨hT, hD⟩ := takeWhile_split (b := mm ++ ':' :: (ss ++ tail)) hallh
    (by decide : isDigitChar ':' = false)
  simp only [bareNumberMs, hT, hD]
  rw [if_neg (by simpa [List.isEmpty_iff] using hneh)]
  split
  · rename_i heq
    simp at heq
  · rename_i fr heq
    simp at heq
  · rfl

theorem timeMsOfChars_eq_some_iff (cs : List Char) (n : ℕ) :
    timeMsOfChars cs = some n ↔ ∃ q, TimeSpecDenotes cs q ∧ n = ⌊(1000 : ℚ) * q⌋₊ := by
  constructor
  · intro h
    unfold timeMsOfChars at h
    cases hb : bareNumberMs cs with
    | some m =>
        rw [hb] at h
        rw [Option.some.injEq] at h
        obtain ⟨q, hden, hq⟩ := (bareNumberMs_eq_some_iff cs m).mp hb
        exact ⟨q, Or.inl hden, h ▸ hq⟩
    | none =>
        rw [hb] at h
        obtain ⟨q, hden, hq⟩ := (hmsMs_eq_some_iff cs n).mp h
        exact ⟨q, Or.inr hden, hq⟩
  · rintro ⟨q, hden, rfl⟩
    unfold timeMsOfChars
    rcases hden with hbare | hhms
    · rw [(bareNumberMs_eq_some_iff cs _).mpr ⟨q, hbare, rfl⟩]
    · rw [bareNumberMs_of_hms hhms]
      exact (hmsMs_eq_some_iff cs _).mpr ⟨q, hhms, rfl⟩

theorem not_timeSpecDenotes_nil (q : ℚ) : ¬ TimeSpecDenotes [] q := by
  rintro (hbare | hhms)
  · rcases hbare with ⟨hd, -⟩ | ⟨a, b, heq, -, -, -⟩
    · simp [isDigits] at hd
    · obtain ⟨-, hb⟩ := List.append_eq_nil.mp heq.symm
      exact List.cons_ne_nil _ _ hb
  · obtain ⟨hh, mm, ss, tail, mv, sv, heq, hhd, -, -, -⟩ := hhms
    obtain ⟨hneh, -⟩ := (isDigits_iff _).mp hhd
    obtain ⟨h1, -⟩ := List.append_eq_nil.mp heq.symm
    exact hneh h1

/-- C6: `parseTimeToMs` returns `some n` exactly when the trimmed input
matches the bare-decimal-seconds or `HH:MM:SS[.fraction]` grammar (minutes
and seconds in `[0, 59]`) with non-negative rational value `q` seconds and
`n = ⌊1000 * q⌋` (floor-truncated milliseconds); it returns `none` (never
throws) on everything else, and the five spec examples evaluate as stated. -/
theorem parseTimeToMs_spec :
    (∀ (s : String) (n : ℕ),
      parseTimeToMs (some s) = some n ↔
        ∃ q, TimeSpecDenotes (jsTrim s.data) q ∧ n = ⌊(1000 : ℚ) * q⌋₊) ∧
    parseTimeToMs (some "2.5") = some 2500 ∧
    parseTimeToMs (some "00:00:03") = some 3000 ∧
    parseTimeToMs (some "01:02:03.250") = some 3723250 ∧
    parseTimeToMs (some "bogus") = none ∧
    parseTimeToMs (some "-1") = none := by
  refine ⟨?_, by decide, by decide, by decide, by decide, by decide⟩
  intro s n
  simp only [parseTimeToMs]
  by_cases hv : s.data.isEmpty = true
  · rw [if_pos hv]
    have hnil : s.data = [] := by simpa [List.isEmpty_iff] using hv
    rw [hnil]
    constructor
    · intro h
      simp at h
    · rintro ⟨q, hden, -⟩
      exact absurd hden (not_timeSpecDenotes_nil q)
  · rw [if_neg hv]
    by_cases ht : (jsTrim s.data).isEmpty = true
    · rw [if_pos ht]
      have hnil : jsTrim s.data = [] := by simpa [List.isEmpty_iff] using ht
      constructor
      · intro h
        simp at h
      · rintro ⟨q, hden, -⟩
        rw [hnil] at hden
        exact absurd hden (not_timeSpecDenotes_nil q)
    · rw [if_neg ht]
      exact timeMsOfChars_eq_some_iff _ n

theorem convertRun_unlinkOk_irrelevant (opts : ConvertOptions) (env : Env) (b : Bool) :
    (convertRun opts { env with unlinkOk := b }).result = (convertRun opts env).result ∧
    (convertRun opts { env with unlinkOk := b }).events = (convertRun opts env).events ∧
    (convertRun opts { env with unlinkOk := b }).spawns = (convertRun opts env).spawns ∧
    (convertRun opts { env with unlinkOk := b }).palettePathUsed =
      (convertRun opts env).palettePathUsed := by
  cases env
  simp only [convertRun]
  split_ifs <;> exact ⟨rfl, rfl, rfl, rfl⟩

theorem convertRun_unlinks (opts : ConvertOptions) (env : Env)
    (h : (convertRun opts env).palettePathUsed ≠ none) :
    (convertRun opts env).unlinks = [env.unlinkOk] := by
  cases env
  simp only [convertRun] at h ⊢
  split_ifs at h ⊢ <;> simp_all

/-- C8: on every exit path that reached the palette-path allocation the
palette deletion is attempted exactly once, and its outcome never influences
the run's result, events, spawns or palette path. -/
theorem paletteCleanup_spec (opts : ConvertOptions) (env : Env)
    (h : (convertRun opts env).palettePathUsed ≠ none) :
    (convertRun opts env).unlinks = [env.unlinkOk] ∧
    ∀ b : Bool,
      (convertRun opts { env with unlinkOk := b }).result = (convertRun opts env).result ∧
      (convertRun opts { env with unlinkOk := b }).events = (convertRun opts env).events :=
  ⟨convertRun_unlinks opts env h, fun b =>
    ⟨(convertRun_unlinkOk_irrelevant opts env b).1,
     (convertRun_unlinkOk_irrelevant opts env b).2.1⟩⟩

section
attribute [local semireducible] Rat.mul Rat.add Rat.inv Rat.sub

/-- C8 witness: in the successful concrete run the deletion is attempted
exactly once and flipping its outcome changes nothing observable. -/
theorem paletteCleanup_spec_witness :
    (convertRun optsOk envOk).palettePathUsed ≠ none ∧
    ((convertRun optsOk envOk).unlinks = [envOk.unlinkOk] ∧
      ∀ b : Bool,
        (convertRun optsOk { envOk with unlinkOk := b }).result =
          (convertRun optsOk envOk).result ∧
        (convertRun optsOk { envOk with unlinkOk := b }).events =
          (convertRun optsOk envOk).events) := by
  have hne : (convertRun optsOk envOk).palettePathUsed ≠ none := by decide
  exact ⟨hne, paletteCleanup_spec optsOk envOk hne⟩

end

/-- C4 is refuted as stated: on a request whose output exists without
overwrite the run does fail with `OutputExists`, but an engine subprocess
(the `ffmpeg -version` availability probe) has already been spawned before
the check fails the run, so the spawn list at failure is not empty. -/
theorem outputExists_spawn_counterexample :
    (convertRun optsExists envExists).result = .error .outputExists ∧
    (convertRun optsExists envExists).spawns = [.versionProbe] ∧
    (convertRun optsExists envExists).spawns ≠ [] := by
  refine ⟨rfl, rfl, ?_⟩
  decide

/-- C4 amended: with the engine available and the input present, a request
whose output exists without overwrite fails with `OutputExists`, and no
conversion subprocess (palette run, duration probe or encode run) is spawned
— only the availability version probe precedes the check. -/
theorem outputExists_check_before_conversion (opts : ConvertOptions) (env : Env)
    (hff : env.ffmpegAvailable = true) (hin : env.inputExists = true)
    (hout : env.outputExists = true) (hov : opts.overwrite = false) :
    (convertRun opts env).result = .error .outputExists ∧
    (convertRun opts env).spawns = [.versionProbe] := by
  simp [convertRun, hff, hin, hout, hov]

/-- C4 amended witness: the concrete blocked request. -/
theorem outputExists_check_before_conversion_witness :
    envExists.ffmpegAvailable = true ∧ envExists.inputExists = true ∧
    envExists.outputExists = true ∧ optsExists.overwrite = false ∧
    (convertRun optsExists envExists).result = .error .outputExists ∧
    (convertRun optsExists envExists).spawns = [.versionProbe] := by
  have h := outputExists_check_before_conversion optsExists envExists rfl rfl rfl rfl
  exact ⟨rfl, rfl, rfl, rfl, h.1, h.2⟩

theorem digitChar_isDigit {m : ℕ} (h : m < 10) : isDigitChar (Char.ofNat (48 + m)) = true := by
  interval_cases m <;> decide

theorem digitChar_toNat {m : ℕ} (h : m < 10) : (Char.ofNat (48 + m)).toNat = 48 + m := by
  interval_cases m <;> decide

theorem natToCharsFuel_digits :
    ∀ (fuel n : ℕ), n < fuel → ∀ c ∈ natToCharsFuel fuel n, isDigitChar c = true := by
  intro fuel
  induction fuel with
  | zero => intro n h; exact absurd h (Nat.not_lt_zero n)
  | succ fuel ih =>
      intro n h c hc
      simp only [natToCharsFuel] at hc
      by_cases h10 : n < 10
      · rw [if_pos h10] at hc
        simp only [List.mem_singleton] at hc
        subst hc
        exact digitChar_isDigit h10
      · rw [if_neg h10] at hc
        rcases List.mem_append.mp hc with hc | hc
        · exact ih (n / 10) (by omega) c hc
        · simp only [List.mem_singleton] at hc
          subst hc
          exact digitChar_isDigit (Nat.mod_lt _ (by omega))

theorem natToChars_digits (n : ℕ) : ∀ c ∈ natToChars n, isDigitChar c = true :=
  natToCharsFuel_digits (n + 1) n (Nat.lt_succ_self n)

theorem charsVal_append_single (l : List Char) (c : Char) :
    charsVal (l ++ [c]) = charsVal l * 10 + (c.toNat - 48) := by
  simp [charsVal, List.foldl_append]

theorem charsVal_natToCharsFuel :
    ∀ (fuel n : ℕ), n < fuel → charsVal (natToCharsFuel fuel n) = n := by
  intro fuel
  induction fuel with
  | zero => intro n h; exact absurd h (Nat.not_lt_zero n)
  | succ fuel ih =>
      intro n h
      simp only [natToCharsFuel]
      by_cases h10 : n < 10
      · rw [if_pos h10, charsVal_singleton, digitChar_toNat h10]
        omega
      · rw [if_neg h10, charsVal_append_single, ih (n / 10) (by omega),
          digitChar_toNat (Nat.mod_lt _ (by omega))]
        omega

theorem natToChars_inj {m n : ℕ} (h : natToChars m = natToChars n) : m = n := by
  have hm : charsVal (natToChars m) = m :=
    charsVal_natToCharsFuel (m + 1) m (Nat.lt_succ_self m)
  have hn : charsVal (natToChars n) = n :=
    charsVal_natToCharsFuel (n + 1) n (Nat.lt_succ_self n)
  rw [← hm, ← hn, h]

theorem isDigitChar_ne_dash {c : Char} (h : isDigitChar c = true) : c ≠ '-' := by
  intro hc
  subst hc
  exact absurd (digit_bounds h) (by decide)

theorem append_dash_inj :
    ∀ (a : List Char) {b : List Char} (c : List Char) {d : List Char},
      (∀ x ∈ a, x ≠ '-') → (∀ x ∈ c, x ≠ '-') →
      a ++ '-' :: b = c ++ '-' :: d → a = c ∧ b = d := by
  intro a
  induction a with
  | nil =>
      intro b c d _ hc h
      cases c with
      | nil =>
          simp only [List.nil_append] at h
          exact ⟨rfl, List.cons.inj h |>.2⟩
      | cons x cs =>
          simp only [List.nil_append, List.cons_append] at h
          obtain ⟨h1, -⟩ := List.cons.inj h
          exact absurd h1.symm (hc x (by simp))
  | cons y as ih =>
      intro b c d ha hc h
      cases c with
      | nil =>
          simp only [List.cons_append, List.nil_append] at h
          obtain ⟨h1, -⟩ := List.cons.inj h
          exact absurd h1 (ha y (by simp))
      | cons x cs =>
          simp only [List.cons_append] at h
          obtain ⟨h1, h2⟩ := List.cons.inj h
          subst h1
          obtain ⟨hac, hbd⟩ := ih cs (fun z hz => ha z (by simp [hz]))
            (fun z hz => hc z (by simp [hz])) h2
          exact ⟨by rw [hac], hbd⟩

/-- C3 amended: palette paths of two runs in the same scratch directory are
distinct whenever the process id or the millisecond timestamp differ;
uniqueness rests only on these two components (no random part). -/
theorem mkPalettePath_inj (tmpdir : String) (pid1 now1 pid2 now2 : ℕ)
    (h : pid1 ≠ pid2 ∨ now1 ≠ now2) :
    mkPalettePath tmpdir pid1 now1 ≠ mkPalettePath tmpdir pid2 now2 := by
  intro heq
  have hdata : palettePathChars tmpdir pid1 now1 = palettePathChars tmpdir pid2 now2 := by
    injection heq
  unfold palettePathChars at hdata
  rw [List.append_assoc, List.append_assoc] at hdata
  have hx := List.append_cancel_left hdata
  have hx2 := List.append_cancel_left hx
  obtain ⟨hp, hrest⟩ := append_dash_inj _ _
    (fun x hx => isDigitChar_ne_dash (natToChars_digits pid1 x hx))
    (fun x hx => isDigitChar_ne_dash (natToChars_digits pid2 x hx)) hx2
  have hnow := List.append_cancel_right hrest
  rcases h with h | h
  · exact h (natToChars_inj hp)
  · exact h (natToChars_inj hnow)

/-- C3 amended witness: same timestamp but different pids give distinct
palette paths. -/
theorem mkPalettePath_inj_witness :
    ((42 : ℕ) ≠ 43 ∨ (5 : ℕ) ≠ 5) ∧
    mkPalettePath "/tmp" 42 5 ≠ mkPalettePath "/tmp" 43 5 :=
  ⟨Or.inl (by decide), mkPalettePath_inj "/tmp" 42 5 43 5 (Or.inl (by decide))⟩

/-- C3 is refuted as stated: two distinct concurrent runs in the same process
(same pid) whose palette allocations fall in the same millisecond receive the
same temporary palette path — there is no random component. -/
theorem palettePath_collision_counterexample :
    optsOk ≠ optsOkB ∧
    (convertRun optsOk envOk).result = .ok () ∧
    (convertRun optsOkB envOk).result = .ok () ∧
    (convertRun optsOk envOk).palettePathUsed = (convertRun optsOkB envOk).palettePathUsed ∧
    (convertRun optsOk envOk).palettePathUsed ≠ none := by
  exact ⟨by decide, rfl, rfl, rfl, by decide⟩

theorem convertRun_ok_events (opts : ConvertOptions) (env : Env)
    (hok : (convertRun opts env).result = .ok ()) :
    (convertRun opts env).events =
      [ConvertProgress.palette 0, ConvertProgress.palette 10] ++
        env.telemetry.map (fun o =>
          ConvertProgress.encode (encodePercent (effDurationOf opts env) o) o
            (effDurationOf opts env)) ++
      [ConvertProgress.done 100] := by
  cases env
  simp only [convertRun, effDurationOf] at hok ⊢
  split_ifs at hok ⊢
  all_goals simp_all

theorem jsRound_mono {a b : ℚ} (h : a ≤ b) : jsRound a ≤ jsRound b :=
  Int.floor_le_floor (by linarith)

theorem jsRound_ge {a : ℚ} (h : 10 ≤ a) : (10 : ℤ) ≤ jsRound a := by
  rw [jsRound, Int.le_floor]
  push_cast
  linarith

theorem jsRound_le {a : ℚ} (h : a ≤ 100) : jsRound a ≤ 100 := by
  have h1 : jsRound a ≤ jsRound 100 := jsRound_mono h
  have h2 : jsRound (100 : ℚ) = 100 := by
    rw [jsRound]
    exact Int.floor_eq_iff.mpr (by norm_num)
  rw [h2] at h1
  exact h1

theorem clampQ_nonneg (x : ℚ) : 0 ≤ clampQ x := le_min (by norm_num) (le_max_left 0 x)

theorem clampQ_le_one (x : ℚ) : clampQ x ≤ 1 := min_le_left 1 _

theorem encodePercent_ge (dm o : Option ℕ) : (10 : ℤ) ≤ encodePercent dm o := by
  match dm, o with
  | none, _ => exact le_refl _
  | some d, none => exact le_refl _
  | some d, some o' =>
      simp only [encodePercent]
      split_ifs with hd
      · apply jsRound_ge
        have := mul_nonneg (by norm_num : (0:ℚ) ≤ 90) (clampQ_nonneg ((o' : ℚ) / d))
        linarith
      · exact le_refl _

theorem encodePercent_le (dm o : Option ℕ) : encodePercent dm o ≤ 100 := by
  match dm, o with
  | none, _ => norm_num [encodePercent]
  | some d, none => norm_num [encodePercent]
  | some d, some o' =>
      simp only [encodePercent]
      split_ifs with hd
      · apply jsRound_le
        have := clampQ_le_one ((o' : ℚ) / d)
        linarith
      · norm_num

theorem encodePercent_mono (dm : Option ℕ) {a b : ℕ} (h : a ≤ b) :
    encodePercent dm (some a) ≤ encodePercent dm (some b) := by
  cases dm with
  | none => exact le_refl _
  | some d =>
      simp only [encodePercent]
      split_ifs with hd
      · apply jsRound_mono
        have hdq : (0 : ℚ) < d := by exact_mod_cast hd
        have hdiv : (a : ℚ) / d ≤ (b : ℚ) / d :=
          (div_le_div_iff_of_pos_right hdq).mpr (by exact_mod_cast h)
        have hcl : clampQ ((a : ℚ) / d) ≤ clampQ ((b : ℚ) / d) :=
          min_le_min (le_refl 1) (max_le_max (le_refl 0) hdiv)
        linarith
      · exact le_refl _

theorem chain_tail (f : ℕ → ℤ) (hhi : ∀ n, f n ≤ 100)
    (hmono : ∀ a b : ℕ, a ≤ b → f a ≤ f b) :
    ∀ (n : ℕ) (tl : List ℕ), (n :: tl).Chain' (· ≤ ·) →
      (f n :: (tl.map f ++ [100])).Chain' (· ≤ ·) := by
  intro n tl
  induction tl generalizing n with
  | nil =>
      intro _
      simp only [List.map_nil, List.nil_append]
      exact List.chain'_cons.mpr ⟨hhi n, List.chain'_singleton _⟩
  | cons m tl ih =>
      intro hch
      rw [List.chain'_cons] at hch
      simp only [List.map_cons, List.cons_append]
      exact List.chain'_cons.mpr ⟨hmono _ _ hch.1, ih m hch.2⟩

theorem chain_percent (f : ℕ → ℤ) (hlo : ∀ n, (10 : ℤ) ≤ f n) (hhi : ∀ n, f n ≤ 100)
    (hmono : ∀ a b : ℕ, a ≤ b → f a ≤ f b) (ns : List ℕ) (hns : ns.Chain' (· ≤ ·)) :
    ((0 : ℤ) :: 10 :: (ns.map f ++ [100])).Chain' (· ≤ ·) := by
  refine List.chain'_cons.mpr ⟨by norm_num, ?_⟩
  cases ns with
  | nil =>
      simp only [List.map_nil, List.nil_append]
      exact List.chain'_cons.mpr ⟨by norm_num, List.chain'_singleton _⟩
  | cons n tl =>
      simp only [List.map_cons, List.cons_append]
      exact List.chain'_cons.mpr ⟨hlo n, chain_tail f hhi hmono n tl hns⟩

theorem filter_palette_map_encode (dm : Option ℕ) (tel : List (Option ℕ)) :
    (tel.map (fun o => ConvertProgress.encode (encodePercent dm o) o dm)).filter
      isPaletteEvent = [] := by
  induction tel with
  | nil => rfl
  | cons o t ih => simp [List.filter_cons, isPaletteEvent, ih]

theorem filter_done_map_encode (dm : Option ℕ) (tel : List (Option ℕ)) :
    (tel.map (fun o => ConvertProgress.encode (encodePercent dm o) o dm)).filter
      isDoneEvent = [] := by
  induction tel with
  | nil => rfl
  | cons o t ih => simp [List.filter_cons, isDoneEvent, ih]


theorem getLast?_append_singleton {α : Type} (l : List α) (x : α) :
    (l ++ [x]).getLast? = some x := by
  rw [List.getLast?_concat]

/-- C1: in every successful run whose telemetry stream carries defined,
non-decreasing elapsed-output times, the emitted percent sequence is
non-decreasing, the palette phase emits exactly percents 0 and 10, the single
terminal event is `done` at exactly 100, every encode event carries the
resolved effective duration and the percent
`round(10 + 90 * clamp(outTime / duration, 0, 1))` when that duration is
known and positive, and is frozen at 10 when it is unknown or zero. -/
theorem progressTrace_spec (opts : ConvertOptions) (env : Env) (ns : List ℕ)
    (hok : (convertRun opts env).result = .ok ())
    (htel : env.telemetry = ns.map some)
    (hmono : ns.Chain' (· ≤ ·)) :
    C1Conclusion opts env := by
  have hev := convertRun_ok_events opts env hok
  unfold C1Conclusion
  rw [hev, htel]
  set dm := effDurationOf opts env with hdm
  refine ⟨?_, ?_, ?_, ?_, ?_⟩
  · -- non-decreasing percents
    unfold percents
    simp only [List.map_append, List.map_map, List.map_cons, List.map_nil]
    have hshape :
        (([percentOf (ConvertProgress.palette 0), percentOf (ConvertProgress.palette 10)] ++
          ns.map ((fun e => percentOf e) ∘
            ((fun o => ConvertProgress.encode (encodePercent dm o) o dm) ∘ some)) ++
          [percentOf (ConvertProgress.done 100)]) : List ℤ) =
        (0 : ℤ) :: 10 :: (ns.map (fun n => encodePercent dm (some n)) ++ [100]) := by
      simp [percentOf, Function.comp]
    rw [hshape]
    exact chain_percent _ (fun n => encodePercent_ge dm (some n))
      (fun n => encodePercent_le dm (some n))
      (fun a b h => encodePercent_mono dm h) ns hmono
  · simp [List.filter_append, List.filter_cons, isPaletteEvent, List.map_map,
      filter_palette_map_encode]
  · simp [List.filter_append, List.filter_cons, isDoneEvent, List.map_map,
      filter_done_map_encode]
  · exact getLast?_append_singleton _ _
  · intro p o d hmem
    rcases List.mem_append.mp hmem with hmem | hmem
    · rcases List.mem_append.mp hmem with hmem | hmem
      · simp only [List.mem_cons, List.not_mem_nil, or_false, List.mem_singleton] at hmem
        rcases hmem with h | h
        · exact absurd h (by simp)
        · exact absurd h (by simp)
      · rw [List.map_map] at hmem
        obtain ⟨x, -, hn⟩ := List.mem_map.mp hmem
        obtain ⟨hp, ho, hd⟩ := ConvertProgress.encode.inj hn
        subst hp
        subst ho
        subst hd
        refine ⟨rfl, ?_, ?_⟩
        · intro dv ov hdv hpos hov
          rw [Option.some.injEq] at hov
          subst hov
          rw [hdv]
          simp [encodePercent, hpos]
        · intro hc
          rcases hc with hnone | hzero
          · rw [hnone]
            rfl
          · rw [hzero]
            rfl
    · simp only [List.mem_singleton] at hmem
      exact absurd hmem (by simp)

section
attribute [local semireducible] Rat.mul Rat.add Rat.inv Rat.sub

/-- C1 witness: the concrete successful run with telemetry 0, 500, 2000 ms
satisfies every clause of the progress-trace specification. -/
theorem progressTrace_spec_witness :
    (convertRun optsOk envOk).result = .ok () ∧
    envOk.telemetry = ([0, 500, 2000] : List ℕ).map some ∧
    ([0, 500, 2000] : List ℕ).Chain' (· ≤ ·) ∧
    C1Conclusion optsOk envOk := by
  have hch : ([0, 500, 2000] : List ℕ).Chain' (· ≤ ·) := by
    rw [List.chain'_cons, List.chain'_cons]
    exact ⟨by norm_num, by norm_num, List.chain'_singleton _⟩
  exact ⟨rfl, rfl, hch, progressTrace_spec optsOk envOk [0, 500, 2000] rfl rfl hch⟩

end
